import Mathlib

/-!
Verification of the IPv4 ⇄ 32-bit-integer converter (`src/GCS_Converter.py`).

A Python `str` is modelled as `List Char`.  The helpers below embed the
Python string primitives the program uses (`str.strip`, `str.split('.')`,
`str.isdigit`, `int(...)`, `str(...)`, `str.lower`, the `in` substring
test, and `l[-10:]` slicing).  `str.isdigit` is modelled on ASCII decimal
digits and `str.strip` on the ASCII whitespace recognised by
`Char.isWhitespace`; the program's claims only involve such characters.
-/

/-- Python `s.strip()`: drop whitespace from both ends. -/
def pyStrip (s : List Char) : List Char :=
  ((s.dropWhile Char.isWhitespace).reverse.dropWhile Char.isWhitespace).reverse

/-- Python `s.split('.')`: split on every `'.'`, keeping empty segments;
`"".split('.') == [""]`. -/
def splitDot : List Char → List (List Char)
  | [] => [[]]
  | c :: cs =>
    if c = '.' then [] :: splitDot cs
    else
      match splitDot cs with
      | [] => [[c]]
      | p :: ps => (c :: p) :: ps

/-- Python `s.isdigit()`: nonempty and every character a decimal digit. -/
def isdigit (s : List Char) : Bool :=
  !s.isEmpty && s.all Char.isDigit

/-- Python `int(s)` on a string of decimal digits (no sign). -/
def pyInt (s : List Char) : Nat :=
  s.foldl (fun n c => 10 * n + (c.toNat - '0'.toNat)) 0

/-- Python `int(s)` as used at line 274 (`int(value_str)`): optional sign
followed by decimal digits (underscore grouping is not modelled; no input
of interest contains it). -/
def pyParseInt (s : List Char) : Option Int :=
  match s with
  | '-' :: rest => if isdigit rest then some (-(pyInt rest : Int)) else none
  | '+' :: rest => if isdigit rest then some ((pyInt rest : Int)) else none
  | _ => if isdigit s then some ((pyInt s : Int)) else none

/-- Python `str(n)` for a natural number: plain decimal, no leading zeros. -/
def pyStr (n : Nat) : List Char :=
  Nat.toDigits 10 n

/-- Python `s.lower()` (ASCII letters). -/
def pyLower (s : List Char) : List Char :=
  s.map Char.toLower

/-- Python `needle in hay` for strings: substring test. -/
def pyContains (hay needle : List Char) : Bool :=
  hay.tails.any (fun t => needle.isPrefixOf t)

/-- Python `l[-n:]`: the last `n` elements (all of them when `l` is shorter). -/
def lastN (n : Nat) (l : List α) : List α :=
  l.drop (l.length - n)

/-!  ## The codec (lines 29–38) -/

/-- Line 29–33:
```python
def ip_to_int(ip_address: str) -> int:
    parts = ip_address.strip().split('.')
    if len(parts) != 4 or not all(p.isdigit() and 0 <= int(p) <= 255 for p in parts):
        raise ValueError("Invalid IPv4 address format")
    return sum(int(part) << (8 * (3 - i)) for i, part in enumerate(parts))
```
`raise ValueError` is modelled as `none`; `x << k` is `x * 2 ^ k`; the
Python conjunct `0 <= int(p)` is omitted because `pyInt` is a `Nat`. -/
def ip_to_int (ip_address : List Char) : Option Nat :=
  let parts := splitDot (pyStrip ip_address)
  if parts.length = 4 && parts.all (fun p => isdigit p && decide (pyInt p ≤ 255)) then
    some ((parts.enum.map (fun ip => pyInt ip.2 * 2 ^ (8 * (3 - ip.1)))).sum)
  else
    none

/-- Line 35–38:
```python
def int_to_ip(int_value: int) -> str:
    if not (0 <= int_value <= 0xFFFFFFFF):
        raise ValueError("Integer out of IPv4 range")
    return ".".join(str((int_value >> (8 * i)) & 0xFF) for i in reversed(range(4)))
```
`raise ValueError` is modelled as `none`; for `0 ≤ x`, `(x >> k) & 0xFF`
is `x / 2 ^ k % 256`. -/
def int_to_ip (int_value : Int) : Option (List Char) :=
  if 0 ≤ int_value ∧ int_value ≤ 0xFFFFFFFF then
    some (List.intercalate ['.']
      [pyStr (int_value.toNat / 2 ^ 24 % 256), pyStr (int_value.toNat / 2 ^ 16 % 256),
       pyStr (int_value.toNat / 2 ^ 8 % 256), pyStr (int_value.toNat % 256)])
  else
    none

/-- The spec's `normalize(s)` for a valid dotted quad (octet-normalized
form: trimmed, each octet re-rendered in plain decimal with no leading
zeros).  This definition follows the spec's words; it is the comparison
target of the round-trip claim, not code of the repository. -/
def normalizeIp (s : List Char) : Option (List Char) :=
  let parts := splitDot (pyStrip s)
  if parts.length = 4 && parts.all (fun p => isdigit p && decide (pyInt p ≤ 255)) then
    some (List.intercalate ['.'] (parts.map (fun p => pyStr (pyInt p))))
  else
    none

/-!  ## History entries and the conversion handler (lines 269–314)

The source file stores a mojibake (CP1252-decoded UTF-8) rendering of
"→" and "🚀" in its f-string literals; the embedding keeps the source's
exact characters, built with `Char.ofNat` for clarity. -/

/-- The three characters between the input and output halves of a history
line (the source's rendering of the arrow). -/
def arrowChars : List Char := [Char.ofNat 0xE2, Char.ofNat 0x2020, Char.ofNat 0x2019]

/-- The four characters opening the decorative tag (the source's rendering
of the rocket). -/
def rocketChars : List Char := [Char.ofNat 0xF0, Char.ofNat 0x178, Char.ofNat 0x161, Char.ofNat 0x20AC]

/-- Line 289 / 311: `vb_code = f"{rocket} VB-2000{third_octet}"`. -/
def vb_code (third_octet : List Char) : List Char :=
  rocketChars ++ (" VB-2000").data ++ third_octet

/-- Line 280 / 288 / 306 / 308: third dotted segment of `s`, or `"??"`
when `s` does not split into exactly 4 segments. -/
def third_octet_of (s : List Char) : List Char :=
  let parts := splitDot s
  if parts.length = 4 then parts.getD 2 [] else ("??").data

/-- Line 290: `history_entry = f"{input_label}: {value_str} {arrow} {output_label}: {display}    {vb_code}"`. -/
def history_entry (input_label value_str output_label display vb : List Char) : List Char :=
  input_label ++ (": ").data ++ value_str ++ [' '] ++ arrowChars ++ [' '] ++
    output_label ++ (": ").data ++ display ++ ("    ").data ++ vb

/-- Line 312: `error_entry = f"{input_label}: {value_str} {arrow} Error    {vb_code}"` —
note: no output label on the error line. -/
def error_entry (input_label value_str vb : List Char) : List Char :=
  input_label ++ (": ").data ++ value_str ++ [' '] ++ arrowChars ++
    (" Error    ").data ++ vb

/-- How a call to `_convert_units` ends: normally, or with a Python
`UnboundLocalError` escaping the handler. -/
inductive ConvEnd where
  | ok : ConvEnd
  | unboundLocal : ConvEnd
deriving DecidableEq, Repr

/-- Lines 269–314, `_convert_units`, reduced to its observable effect:
how the handler ends, and the list of history entries it records.

On success (the `try` block completes) the handler records exactly the
`history_entry` of line 290.  On any conversion failure the exception is
raised at line 274 (`int(value_str)`), 275 (`int_to_ip`) or 283
(`ip_to_int`) — in every case *before* `input_label` is assigned (lines
277 / 285).  The `except` block then reads `input_label` at line 312;
since `input_label` is a local variable of the function that is unbound
on this path, Python raises `UnboundLocalError` there, which nothing
catches, so `_add_history` (line 313) never runs and no entry is
recorded on the error path. -/
def convert_units (reverse : Bool) (raw : List Char) : ConvEnd × List (List Char) :=
  let value_str := pyStrip raw
  let attempt : Option (List Char) :=
    if reverse then
      match pyParseInt value_str with
      | none => none
      | some v =>
        match int_to_ip v with
        | none => none
        | some result =>
          some (history_entry (("32-bit Integer").data) value_str (("IP Address").data)
            result (vb_code (third_octet_of result)))
    else
      match ip_to_int value_str with
      | none => none
      | some result =>
        some (history_entry (("IP Address").data) value_str (("32-bit Integer").data)
          (pyStr result) (vb_code (third_octet_of value_str)))
  match attempt with
  | some entry => (ConvEnd.ok, [entry])
  | none => (ConvEnd.unboundLocal, [])

/-!  ## The history store (lines 212–256) -/

/-- The mutable fields of `ModernUnitConverterApp` relevant to the
history store: the in-memory queue, the persisted log (as its list of
lines, oldest first), the search box contents, and the listbox contents
(top to bottom). -/
structure AppState where
  history : List (List Char)
  file : List (List Char)
  search_var : List Char
  listbox : List (List Char)
deriving DecidableEq, Repr

/-- Lines 212–231, `_search_history`, as the list the listbox displays:
`query_raw` is the search box contents, `fileLines` the persisted log
(`none` models a missing file or read failure), `history` the in-memory
queue.  Nonempty query: filter the stripped file lines by
case-insensitive containment, display in reverse file order.  Empty
query: display the in-memory `history[-10:]`, most recent first. -/
def search_history_lines (query_raw : List Char) (fileLines : Option (List (List Char)))
    (history : List (List Char)) : List (List Char) :=
  let query := pyLower query_raw
  let filtered :=
    if query.isEmpty then
      lastN 10 history
    else
      (match fileLines with
       | some ls => ls.map pyStrip
       | none => []).filter (fun l => pyContains (pyLower l) query)
  filtered.reverse

/-- `_search_history` acting on the app state (the in-app call always
reads the app's own log). -/
def app_search_history (st : AppState) : AppState :=
  { st with listbox := search_history_lines st.search_var (some st.file) st.history }

/-- Lines 233–239, `_add_history`: append to the in-memory queue, pop the
oldest when the queue exceeds 10, append the entry to the log file, clear
the search box, refresh the listbox. -/
def add_history (st : AppState) (entry : List Char) : AppState :=
  let h := st.history ++ [entry]
  let h := if 10 < h.length then h.tail else h
  app_search_history { st with history := h, file := st.file ++ [entry], search_var := [] }

/-- A fresh app state over an empty (or absent) log. -/
def initState : AppState := ⟨[], [], [], []⟩

/-!  ## Input recall (lines 324–347) -/

/-- Lines 324–334, `_conv_input_up`: `hist` is the field's input history,
`idx` the cursor (`none` = unset), `field` the field contents.  Returns
the new cursor and field contents. -/
def conv_input_up (hist : List (List Char)) (idx : Option Nat) (field : List Char) :
    Option Nat × List Char :=
  if hist.isEmpty then (idx, field)
  else
    let i := match idx with
      | none => hist.length - 1
      | some j => if 0 < j then j - 1 else j
    (some i, hist.getD i [])

/-- Lines 336–347, `_conv_input_down`. -/
def conv_input_down (hist : List (List Char)) (idx : Option Nat) (field : List Char) :
    Option Nat × List Char :=
  match idx with
  | none => (none, field)
  | some j =>
    if j < hist.length - 1 then (some (j + 1), hist.getD (j + 1) [])
    else (none, [])

/-!  ## Helper lemmas -/

/-- Facts about Python decimal rendering of a single octet, checked for
all 256 values: parsing it back yields the value, it is a nonempty digit
string, contains no `'.'`, no whitespace, and has no leading zero. -/
theorem pyStr_octet_facts : ∀ m : Nat, m < 256 →
    pyInt (pyStr m) = m ∧ isdigit (pyStr m) = true ∧ '.' ∉ pyStr m ∧
    (pyStr m).all (fun c => !c.isWhitespace) = true ∧
    (pyStr m = ['0'] ∨ (pyStr m).head? ≠ some '0') := by
  set_option maxRecDepth 100000 in decide

theorem dropWhile_eq_self_of {α : Type} (p : α → Bool) (s : List α)
    (h : ∀ c ∈ s, p c = false) : s.dropWhile p = s := by
  cases s with
  | nil => rfl
  | cons a l => simp [List.dropWhile, h a (by simp)]

theorem pyStrip_eq_self (s : List Char) (h : ∀ c ∈ s, c.isWhitespace = false) :
    pyStrip s = s := by
  unfold pyStrip
  rw [dropWhile_eq_self_of _ _ h, dropWhile_eq_self_of, List.reverse_reverse]
  intro c hc
  exact h c (by simpa using hc)

theorem splitDot_no_dot (p : List Char) (h : '.' ∉ p) : splitDot p = [p] := by
  induction p with
  | nil => rfl
  | cons c cs ih =>
    have hc : c ≠ '.' := fun e => h (by simp [e])
    have h' : '.' ∉ cs := fun hm => h (by simp [hm])
    simp [splitDot, hc, ih h']

theorem splitDot_append (p rest : List Char) (h : '.' ∉ p) :
    splitDot (p ++ '.' :: rest) = p :: splitDot rest := by
  induction p with
  | nil => simp [splitDot]
  | cons c cs ih =>
    have hc : c ≠ '.' := fun e => h (by simp [e])
    have h' : '.' ∉ cs := fun hm => h (by simp [hm])
    simp [splitDot, hc]
    rw [ih h']

theorem intercalate_four (a b c d : List Char) :
    List.intercalate ['.'] [a, b, c, d] = a ++ '.' :: (b ++ '.' :: (c ++ '.' :: d)) := by
  simp [List.intercalate, List.intersperse]

theorem splitDot_quad (a b c d : List Char)
    (ha : '.' ∉ a) (hb : '.' ∉ b) (hc : '.' ∉ c) (hd : '.' ∉ d) :
    splitDot (a ++ '.' :: (b ++ '.' :: (c ++ '.' :: d))) = [a, b, c, d] := by
  rw [splitDot_append _ _ ha, splitDot_append _ _ hb, splitDot_append _ _ hc,
    splitDot_no_dot _ hd]

theorem isDigit_ne_dot {c : Char} (h : c.isDigit = true) : c ≠ '.' := by
  rintro rfl
  exact absurd h (by decide)

theorem isDigit_not_ws {c : Char} (h : c.isDigit = true) : c.isWhitespace = false := by
  by_contra h2
  rw [Bool.not_eq_false] at h2
  simp [Char.isWhitespace] at h2
  rcases h2 with ((rfl | rfl) | rfl) | rfl <;> exact absurd h (by decide)

theorem isdigit_no_dot {s : List Char} (h : isdigit s = true) : '.' ∉ s := by
  intro hm
  rcases Bool.and_eq_true .. |>.mp h with ⟨-, hall⟩
  exact absurd (List.all_eq_true.mp hall _ hm) (by decide)

theorem isdigit_no_ws {s : List Char} (h : isdigit s = true) :
    ∀ c ∈ s, c.isWhitespace = false := by
  intro c hm
  rcases Bool.and_eq_true .. |>.mp h with ⟨-, hall⟩
  exact isDigit_not_ws (List.all_eq_true.mp hall _ hm)

theorem quad_no_ws (a b c d : List Char)
    (ha : ∀ ch ∈ a, ch.isWhitespace = false) (hb : ∀ ch ∈ b, ch.isWhitespace = false)
    (hc : ∀ ch ∈ c, ch.isWhitespace = false) (hd : ∀ ch ∈ d, ch.isWhitespace = false) :
    ∀ ch ∈ a ++ '.' :: (b ++ '.' :: (c ++ '.' :: d)), ch.isWhitespace = false := by
  intro ch hch
  simp only [List.mem_append, List.mem_cons] at hch
  rcases hch with h | rfl | h | rfl | h | rfl | h
  · exact ha ch h
  · decide
  · exact hb ch h
  · decide
  · exact hc ch h
  · decide
  · exact hd ch h

theorem ip_to_int_of_parts (s p0 p1 p2 p3 : List Char)
    (hs : splitDot (pyStrip s) = [p0, p1, p2, p3])
    (h0 : isdigit p0 = true) (h1 : isdigit p1 = true)
    (h2 : isdigit p2 = true) (h3 : isdigit p3 = true)
    (g0 : pyInt p0 ≤ 255) (g1 : pyInt p1 ≤ 255)
    (g2 : pyInt p2 ≤ 255) (g3 : pyInt p3 ≤ 255) :
    ip_to_int s =
      some (pyInt p0 * 2 ^ 24 + pyInt p1 * 2 ^ 16 + pyInt p2 * 2 ^ 8 + pyInt p3) := by
  unfold ip_to_int
  rw [hs]
  simp [h0, h1, h2, h3, g0, g1, g2, g3, List.enum]
  ring

theorem ip_to_int_none_of_invalid (s : List Char)
    (h : ¬ ((splitDot (pyStrip s)).length = 4 ∧
            ∀ p ∈ splitDot (pyStrip s), isdigit p = true ∧ pyInt p ≤ 255)) :
    ip_to_int s = none := by
  unfold ip_to_int
  rw [if_neg]
  intro hc
  rcases Bool.and_eq_true .. |>.mp hc with ⟨hlen, hall⟩
  refine h ⟨by simpa using hlen, fun p hp => ?_⟩
  have := List.all_eq_true.mp hall p hp
  rcases Bool.and_eq_true .. |>.mp this with ⟨hd, hb⟩
  exact ⟨hd, by simpa using hb⟩

theorem recompose_octets (n : Nat) (h : n ≤ 4294967295) :
    n / 16777216 % 256 * 16777216 + n / 65536 % 256 * 65536 +
      n / 256 % 256 * 256 + n % 256 = n := by
  omega

theorem octets_of_packed (o0 o1 o2 o3 : Nat)
    (b0 : o0 ≤ 255) (b1 : o1 ≤ 255) (b2 : o2 ≤ 255) (b3 : o3 ≤ 255) :
    (o0 * 16777216 + o1 * 65536 + o2 * 256 + o3) / 16777216 % 256 = o0 ∧
    (o0 * 16777216 + o1 * 65536 + o2 * 256 + o3) / 65536 % 256 = o1 ∧
    (o0 * 16777216 + o1 * 65536 + o2 * 256 + o3) / 256 % 256 = o2 ∧
    (o0 * 16777216 + o1 * 65536 + o2 * 256 + o3) % 256 = o3 := by
  refine ⟨?_, ?_, ?_, ?_⟩ <;> omega

theorem all_not_ws {s : List Char} (h : s.all (fun c => !c.isWhitespace) = true) :
    ∀ c ∈ s, c.isWhitespace = false := by
  intro c hc
  simpa using List.all_eq_true.mp h c hc

theorem int_to_ip_of_nat (n : Nat) (h : n ≤ 4294967295) :
    int_to_ip (n : Int) = some (List.intercalate ['.']
      [pyStr (n / 16777216 % 256), pyStr (n / 65536 % 256),
       pyStr (n / 256 % 256), pyStr (n % 256)]) := by
  unfold int_to_ip
  rw [if_pos]
  · norm_num
  · exact ⟨Int.natCast_nonneg n, by exact_mod_cast h⟩

theorem list_len4 {α : Type} (l : List α) (h : l.length = 4) :
    ∃ a b c d, l = [a, b, c, d] := by
  cases l with
  | nil => simp at h
  | cons a l1 =>
    cases l1 with
    | nil => simp at h
    | cons b l2 =>
      cases l2 with
      | nil => simp at h
      | cons c l3 =>
        cases l3 with
        | nil => simp at h
        | cons d l4 =>
          cases l4 with
          | nil => exact ⟨a, b, c, d, rfl⟩
          | cons e l5 => simp at h

theorem normalizeIp_of_parts (s p0 p1 p2 p3 : List Char)
    (hs : splitDot (pyStrip s) = [p0, p1, p2, p3])
    (h0 : isdigit p0 = true) (h1 : isdigit p1 = true)
    (h2 : isdigit p2 = true) (h3 : isdigit p3 = true)
    (g0 : pyInt p0 ≤ 255) (g1 : pyInt p1 ≤ 255)
    (g2 : pyInt p2 ≤ 255) (g3 : pyInt p3 ≤ 255) :
    normalizeIp s = some (List.intercalate ['.']
      [pyStr (pyInt p0), pyStr (pyInt p1), pyStr (pyInt p2), pyStr (pyInt p3)]) := by
  unfold normalizeIp
  rw [hs]
  simp [h0, h1, h2, h3, g0, g1, g2, g3]

/-- Applying `ip_to_int` to the dotted join of four octet renderings
recovers the packed value (the second round-trip direction, on the
already-rendered string). -/
theorem ip_to_int_join_octets (a b c d : Nat)
    (ba : a < 256) (bb : b < 256) (bc : c < 256) (bd : d < 256) :
    ip_to_int (List.intercalate ['.'] [pyStr a, pyStr b, pyStr c, pyStr d]) =
      some (a * 2 ^ 24 + b * 2 ^ 16 + c * 2 ^ 8 + d) := by
  obtain ⟨pa, da, na, wa, -⟩ := pyStr_octet_facts a ba
  obtain ⟨pb, db, nb, wb, -⟩ := pyStr_octet_facts b bb
  obtain ⟨pc, dc, nc, wc, -⟩ := pyStr_octet_facts c bc
  obtain ⟨pd, dd, nd, wd, -⟩ := pyStr_octet_facts d bd
  rw [intercalate_four]
  have hstrip : pyStrip (pyStr a ++ '.' :: (pyStr b ++ '.' :: (pyStr c ++ '.' :: pyStr d))) =
      pyStr a ++ '.' :: (pyStr b ++ '.' :: (pyStr c ++ '.' :: pyStr d)) :=
    pyStrip_eq_self _ (quad_no_ws _ _ _ _ (all_not_ws wa) (all_not_ws wb)
      (all_not_ws wc) (all_not_ws wd))
  have hsplit := splitDot_quad (pyStr a) (pyStr b) (pyStr c) (pyStr d) na nb nc nd
  rw [ip_to_int_of_parts _ (pyStr a) (pyStr b) (pyStr c) (pyStr d)
    (by rw [hstrip]; exact hsplit) da db dc dd
    (by rw [pa]; omega) (by rw [pb]; omega) (by rw [pc]; omega) (by rw [pd]; omega)]
  rw [pa, pb, pc, pd]

/-!  ## The claims -/

/-- C1.  Round-trip: for every valid dotted-quad string `s` (after
trimming, exactly 4 all-digit segments each parsing into [0,255]),
`int_to_ip (ip_to_int s)` equals the octet-normalized form of `s` (no
leading zeros, trimmed); and for every integer `n` in [0, 4294967295],
`ip_to_int (int_to_ip n) = n`.  Validity of `s` is expressed as
`ip_to_int s = some v`, which holds exactly for the valid strings. -/
theorem C1_round_trip :
    (∀ s v, ip_to_int s = some v → int_to_ip (v : Int) = normalizeIp s) ∧
    (∀ n : Nat, n ≤ 4294967295 → ∃ t, int_to_ip (n : Int) = some t ∧ ip_to_int t = some n) := by
  constructor
  · intro s v h
    by_cases hc : (splitDot (pyStrip s)).length = 4 ∧
        ∀ p ∈ splitDot (pyStrip s), isdigit p = true ∧ pyInt p ≤ 255
    · obtain ⟨hlen, hall⟩ := hc
      obtain ⟨p0, p1, p2, p3, hs⟩ := list_len4 _ hlen
      rw [hs] at hall
      have a0 := hall p0 (by simp)
      have a1 := hall p1 (by simp)
      have a2 := hall p2 (by simp)
      have a3 := hall p3 (by simp)
      have hip := ip_to_int_of_parts s p0 p1 p2 p3 hs a0.1 a1.1 a2.1 a3.1 a0.2 a1.2 a2.2 a3.2
      rw [hip, Option.some.injEq] at h
      have hv : v = pyInt p0 * 16777216 + pyInt p1 * 65536 + pyInt p2 * 256 + pyInt p3 := by
        rw [← h]; norm_num
      have hle : v ≤ 4294967295 := by
        have := a0.2; have := a1.2; have := a2.2; have := a3.2; omega
      obtain ⟨e0, e1, e2, e3⟩ := octets_of_packed (pyInt p0) (pyInt p1) (pyInt p2) (pyInt p3)
        a0.2 a1.2 a2.2 a3.2
      rw [int_to_ip_of_nat v hle,
        normalizeIp_of_parts s p0 p1 p2 p3 hs a0.1 a1.1 a2.1 a3.1 a0.2 a1.2 a2.2 a3.2,
        hv, e0, e1, e2, e3]
    · rw [ip_to_int_none_of_invalid s hc] at h
      cases h
  · intro n hn
    refine ⟨_, int_to_ip_of_nat n hn, ?_⟩
    rw [ip_to_int_join_octets (n / 16777216 % 256) (n / 65536 % 256) (n / 256 % 256) (n % 256)
      (Nat.mod_lt _ (by norm_num)) (Nat.mod_lt _ (by norm_num))
      (Nat.mod_lt _ (by norm_num)) (Nat.mod_lt _ (by norm_num))]
    congr 1
    have := recompose_octets n hn
    norm_num
    omega

/-- Witness for C1 at `s = "10.0.0.1"` and `n = 167772161`. -/
theorem C1_round_trip_witness :
    ip_to_int ("10.0.0.1").data = some 167772161 ∧
    int_to_ip (167772161 : Int) = normalizeIp ("10.0.0.1").data ∧
    (∃ t, int_to_ip (167772161 : Int) = some t ∧ ip_to_int t = some 167772161) :=
  ⟨by decide, C1_round_trip.1 ("10.0.0.1").data 167772161 (by decide),
    C1_round_trip.2 167772161 (by decide)⟩

/-- Generalisation of `ip_to_int_join_octets` to arbitrary digit strings
(whatever their leading zeros): joining four all-digit segments whose
values lie in [0,255] with dots is accepted by `ip_to_int`. -/
theorem ip_to_int_join_parts (p0 p1 p2 p3 : List Char)
    (h0 : isdigit p0 = true) (h1 : isdigit p1 = true)
    (h2 : isdigit p2 = true) (h3 : isdigit p3 = true)
    (g0 : pyInt p0 ≤ 255) (g1 : pyInt p1 ≤ 255)
    (g2 : pyInt p2 ≤ 255) (g3 : pyInt p3 ≤ 255) :
    ip_to_int (List.intercalate ['.'] [p0, p1, p2, p3]) =
      some (pyInt p0 * 2 ^ 24 + pyInt p1 * 2 ^ 16 + pyInt p2 * 2 ^ 8 + pyInt p3) := by
  rw [intercalate_four]
  have hstrip : pyStrip (p0 ++ '.' :: (p1 ++ '.' :: (p2 ++ '.' :: p3))) =
      p0 ++ '.' :: (p1 ++ '.' :: (p2 ++ '.' :: p3)) :=
    pyStrip_eq_self _ (quad_no_ws _ _ _ _ (isdigit_no_ws h0) (isdigit_no_ws h1)
      (isdigit_no_ws h2) (isdigit_no_ws h3))
  have hsplit := splitDot_quad p0 p1 p2 p3 (isdigit_no_dot h0) (isdigit_no_dot h1)
    (isdigit_no_dot h2) (isdigit_no_dot h3)
  exact ip_to_int_of_parts _ p0 p1 p2 p3 (by rw [hstrip]; exact hsplit)
    h0 h1 h2 h3 g0 g1 g2 g3

/-- C2.  `addressToInteger` contract: an input whose trimmed form splits
on `'.'` into exactly 4 all-digit segments in [0,255] maps to
`octet0 * 2^24 + octet1 * 2^16 + octet2 * 2^8 + octet3`; any other input
(wrong segment count, non-numeric segment, or segment out of range)
yields the `InvalidFormat` failure (`none`), with no partial result.
The boundary cases `"0.0.0.0" = 0` and `"255.255.255.255" = 4294967295`
are included. -/
theorem C2_address_to_integer_contract :
    (∀ s p0 p1 p2 p3 : List Char, splitDot (pyStrip s) = [p0, p1, p2, p3] →
      ((∀ p ∈ [p0, p1, p2, p3], isdigit p = true ∧ pyInt p ≤ 255) →
        ip_to_int s =
          some (pyInt p0 * 2 ^ 24 + pyInt p1 * 2 ^ 16 + pyInt p2 * 2 ^ 8 + pyInt p3)) ∧
      ((∃ p ∈ [p0, p1, p2, p3], isdigit p = false ∨ 255 < pyInt p) →
        ip_to_int s = none)) ∧
    (∀ s : List Char, (splitDot (pyStrip s)).length ≠ 4 → ip_to_int s = none) ∧
    ip_to_int ("0.0.0.0").data = some 0 ∧
    ip_to_int ("255.255.255.255").data = some 4294967295 := by
  refine ⟨?_, ?_, by decide, by decide⟩
  · intro s p0 p1 p2 p3 hs
    constructor
    · intro hall
      have a0 := hall p0 (by simp)
      have a1 := hall p1 (by simp)
      have a2 := hall p2 (by simp)
      have a3 := hall p3 (by simp)
      exact ip_to_int_of_parts s p0 p1 p2 p3 hs a0.1 a1.1 a2.1 a3.1 a0.2 a1.2 a2.2 a3.2
    · rintro ⟨p, hp, hbad⟩
      refine ip_to_int_none_of_invalid s ?_
      rintro ⟨-, hall⟩
      have := hall p (by rw [hs]; exact hp)
      rcases hbad with hb | hb
      · rw [this.1] at hb
        cases hb
      · exact absurd this.2 (by omega)
  · intro s hlen
    exact ip_to_int_none_of_invalid s (fun h => hlen h.1)

/-- Witness for C2 at `s = "  10.0.0.1  "` (with surrounding whitespace)
and at the non-numeric input `"a.b.c.d"`. -/
theorem C2_address_to_integer_contract_witness :
    splitDot (pyStrip (("  10.0.0.1  ").data)) =
      [("10").data, ("0").data, ("0").data, ("1").data] ∧
    ip_to_int (("  10.0.0.1  ").data) = some 167772161 ∧
    ip_to_int (("a.b.c.d").data) = none :=
  ⟨by decide,
    by
      have h := ((C2_address_to_integer_contract.1 (("  10.0.0.1  ").data)
        (("10").data) (("0").data) (("0").data) (("1").data) (by decide)).1 (by decide))
      rw [h]; decide,
    by
      have h := ((C2_address_to_integer_contract.1 (("a.b.c.d").data)
        (("a").data) (("b").data) (("c").data) (("d").data) (by decide)).2
        ⟨("a").data, by decide, by decide⟩)
      exact h⟩

/-- C3.  `integerToAddress` contract: every integer in [0, 4294967295]
maps to a 4-segment dotted decimal string, most-significant byte first,
each segment an all-digit decimal numeral with no leading zeros; every
integer outside the range (e.g. -1 and 4294967296) yields the
`OutOfRange` failure (`none`). -/
theorem C3_integer_to_address_contract :
    ∀ n : Int,
      (0 ≤ n → n ≤ 4294967295 →
        ∃ s0 s1 s2 s3 : List Char,
          int_to_ip n = some (List.intercalate ['.'] [s0, s1, s2, s3]) ∧
          (∀ s ∈ [s0, s1, s2, s3],
            isdigit s = true ∧ (s = ['0'] ∨ s.head? ≠ some '0')) ∧
          pyInt s0 * 2 ^ 24 + pyInt s1 * 2 ^ 16 + pyInt s2 * 2 ^ 8 + pyInt s3 = n.toNat) ∧
      ((n < 0 ∨ 4294967295 < n) → int_to_ip n = none) := by
  intro n
  constructor
  · intro hn0 hn1
    set m := n.toNat with hm
    have hn : n = (m : Int) := by rw [hm, Int.toNat_of_nonneg hn0]
    have hmle : m ≤ 4294967295 := by omega
    refine ⟨pyStr (m / 16777216 % 256), pyStr (m / 65536 % 256),
      pyStr (m / 256 % 256), pyStr (m % 256), ?_, ?_, ?_⟩
    · rw [hn, int_to_ip_of_nat m hmle]
    · obtain ⟨-, d0, -, -, z0⟩ := pyStr_octet_facts (m / 16777216 % 256) (Nat.mod_lt _ (by norm_num))
      obtain ⟨-, d1, -, -, z1⟩ := pyStr_octet_facts (m / 65536 % 256) (Nat.mod_lt _ (by norm_num))
      obtain ⟨-, d2, -, -, z2⟩ := pyStr_octet_facts (m / 256 % 256) (Nat.mod_lt _ (by norm_num))
      obtain ⟨-, d3, -, -, z3⟩ := pyStr_octet_facts (m % 256) (Nat.mod_lt _ (by norm_num))
      intro s hs
      simp only [List.mem_cons, List.not_mem_nil, or_false] at hs
      rcases hs with rfl | rfl | rfl | rfl
      · exact ⟨d0, z0⟩
      · exact ⟨d1, z1⟩
      · exact ⟨d2, z2⟩
      · exact ⟨d3, z3⟩
    · obtain ⟨p0, -, -, -, -⟩ := pyStr_octet_facts (m / 16777216 % 256) (Nat.mod_lt _ (by norm_num))
      obtain ⟨p1, -, -, -, -⟩ := pyStr_octet_facts (m / 65536 % 256) (Nat.mod_lt _ (by norm_num))
      obtain ⟨p2, -, -, -, -⟩ := pyStr_octet_facts (m / 256 % 256) (Nat.mod_lt _ (by norm_num))
      obtain ⟨p3, -, -, -, -⟩ := pyStr_octet_facts (m % 256) (Nat.mod_lt _ (by norm_num))
      rw [p0, p1, p2, p3]
      have := recompose_octets m hmle
      norm_num
      omega
  · intro hout
    unfold int_to_ip
    rw [if_neg]
    rintro ⟨h0, h1⟩
    rcases hout with h | h
    · omega
    · have : (4294967295 : Int) < 0xFFFFFFFF → False := by norm_num
      omega

/-- Witness for C3 at `n = 4294967295` (in range) and `n = -1`,
`n = 4294967296` (rejected). -/
theorem C3_integer_to_address_contract_witness :
    (∃ s0 s1 s2 s3 : List Char,
      int_to_ip (4294967295 : Int) = some (List.intercalate ['.'] [s0, s1, s2, s3]) ∧
      (∀ s ∈ [s0, s1, s2, s3],
        isdigit s = true ∧ (s = ['0'] ∨ s.head? ≠ some '0')) ∧
      pyInt s0 * 2 ^ 24 + pyInt s1 * 2 ^ 16 + pyInt s2 * 2 ^ 8 + pyInt s3 =
        (4294967295 : Int).toNat) ∧
    int_to_ip (-1 : Int) = none ∧ int_to_ip (4294967296 : Int) = none :=
  ⟨(C3_integer_to_address_contract 4294967295).1 (by norm_num) (by norm_num),
    (C3_integer_to_address_contract (-1)).2 (by norm_num),
    (C3_integer_to_address_contract 4294967296).2 (by norm_num)⟩

theorem pyInt_cons_zero (p : List Char) : pyInt ('0' :: p) = pyInt p := rfl

theorem isdigit_cons_zero {p : List Char} (h : isdigit p = true) :
    isdigit ('0' :: p) = true := by
  rcases Bool.and_eq_true .. |>.mp h with ⟨-, hall⟩
  simp only [isdigit, List.isEmpty_cons, Bool.not_false, List.all_cons, Bool.true_and]
  exact Bool.and_eq_true .. |>.mpr ⟨by decide, hall⟩

/-- C6, counterexample: `ip_to_int` accepts the leading-zero input
`"01.2.3.4"` (the claim says it signals `InvalidFormat`). -/
theorem C6_counterexample : ip_to_int (("01.2.3.4").data) = some 16909060 := by decide

/-- C6, amended.  `addressToInteger` tolerates leading zeros: any four
all-digit segments with values in [0,255] are accepted — in particular a
segment with an extra leading `'0'` — and the leading zero does not
change the result. -/
theorem C6_leading_zeros_accepted :
    ∀ p0 p1 p2 p3 : List Char,
      (∀ p ∈ [p0, p1, p2, p3], isdigit p = true ∧ pyInt p ≤ 255) →
      ip_to_int (List.intercalate ['.'] [('0' :: p0), p1, p2, p3]) =
        some (pyInt p0 * 2 ^ 24 + pyInt p1 * 2 ^ 16 + pyInt p2 * 2 ^ 8 + pyInt p3) ∧
      ip_to_int (List.intercalate ['.'] [('0' :: p0), p1, p2, p3]) =
        ip_to_int (List.intercalate ['.'] [p0, p1, p2, p3]) := by
  intro p0 p1 p2 p3 hall
  have a0 := hall p0 (by simp)
  have a1 := hall p1 (by simp)
  have a2 := hall p2 (by simp)
  have a3 := hall p3 (by simp)
  have hz : ip_to_int (List.intercalate ['.'] [('0' :: p0), p1, p2, p3]) =
      some (pyInt p0 * 2 ^ 24 + pyInt p1 * 2 ^ 16 + pyInt p2 * 2 ^ 8 + pyInt p3) := by
    have := ip_to_int_join_parts ('0' :: p0) p1 p2 p3 (isdigit_cons_zero a0.1) a1.1 a2.1 a3.1
      (by rw [pyInt_cons_zero]; exact a0.2) a1.2 a2.2 a3.2
    rw [this, pyInt_cons_zero]
  refine ⟨hz, ?_⟩
  rw [hz, ip_to_int_join_parts p0 p1 p2 p3 a0.1 a1.1 a2.1 a3.1 a0.2 a1.2 a2.2 a3.2]

/-- Witness for the amended C6 at `"01.2.3.4"` versus `"1.2.3.4"`. -/
theorem C6_leading_zeros_accepted_witness :
    ip_to_int (("01.2.3.4").data) = some 16909060 ∧
    ip_to_int (("01.2.3.4").data) = ip_to_int (("1.2.3.4").data) := by
  have h := C6_leading_zeros_accepted (("1").data) (("2").data) (("3").data) (("4").data)
    (by decide)
  constructor
  · have := h.1
    rw [show List.intercalate ['.'] [('0' :: ("1").data), ("2").data, ("3").data, ("4").data] =
      (("01.2.3.4").data) from by decide] at this
    rw [this]
    decide
  · have := h.2
    rw [show List.intercalate ['.'] [('0' :: ("1").data), ("2").data, ("3").data, ("4").data] =
      (("01.2.3.4").data) from by decide,
      show List.intercalate ['.'] [("1").data, ("2").data, ("3").data, ("4").data] =
      (("1.2.3.4").data) from by decide] at this
    exact this

/-- C4.  Evaluation of the conversion handler at failing inputs: in both
directions a failed conversion ends in the escaping `UnboundLocalError`
of line 312 (`input_label` is only assigned at lines 277/285, after the
point of failure) and records no history entry — contradicting the claim
that an error-noting entry is still appended and that the handler
completes without an unhandled exception. -/
theorem C4_error_path_crash :
    convert_units false (("abc").data) = (ConvEnd.unboundLocal, []) ∧
    convert_units true (("abc").data) = (ConvEnd.unboundLocal, []) ∧
    convert_units true (("4294967296").data) = (ConvEnd.unboundLocal, []) ∧
    convert_units false (("1.2.3.256").data) = (ConvEnd.unboundLocal, []) := by
  refine ⟨by decide, by decide, by decide, by decide⟩

/-- C5, counterexample: the error entry the handler builds (line 312)
for the failed forward conversion of `"abc"` is not of the claimed shape
`<InputLabel>: <raw input> → <OutputLabel>: Error    <tag>` — it differs
from that shape and contains no occurrence of the output label
`"32-bit Integer"` at all. -/
theorem C5_counterexample :
    error_entry (("IP Address").data) (("abc").data) (vb_code (("??").data)) ≠
      history_entry (("IP Address").data) (("abc").data) (("32-bit Integer").data)
        (("Error").data) (vb_code (("??").data)) ∧
    pyContains (error_entry (("IP Address").data) (("abc").data) (vb_code (("??").data)))
      (("32-bit Integer").data) = false := by
  refine ⟨by decide, by decide⟩

/-- C5, amended.  Every history entry the conversion handler actually
records (hence every line written to the persisted log by it) has the
full successful shape `<InputLabel>: <raw input> → <OutputLabel>:
<raw output>    <decorative tag>` with the labels paired by direction;
the error entry of line 312 has the shape `<InputLabel>: <raw input> →
Error    <tag>` with no output label, and is never recorded because the
error path dies of the unbound-variable bug first. -/
theorem C5_written_lines_shape :
    ∀ (reverse : Bool) (raw : List Char) (e : List Char),
      e ∈ (convert_units reverse raw).2 →
      ∃ inl outl disp tag,
        ((inl, outl) = ((("IP Address").data), (("32-bit Integer").data)) ∨
         (inl, outl) = ((("32-bit Integer").data), (("IP Address").data))) ∧
        e = inl ++ ((": ").data) ++ pyStrip raw ++ [' '] ++ arrowChars ++ [' '] ++
          outl ++ ((": ").data) ++ disp ++ (("    ").data) ++ vb_code tag := by
  intro reverse raw e he
  unfold convert_units at he
  cases reverse with
  | false =>
    simp only [Bool.false_eq_true, if_false] at he
    cases hip : ip_to_int (pyStrip raw) with
    | none => simp only [hip] at he; simp at he
    | some nres =>
      simp only [hip, List.mem_singleton] at he
      subst he
      exact ⟨(("IP Address").data), (("32-bit Integer").data), pyStr nres,
        third_octet_of (pyStrip raw), Or.inl rfl, rfl⟩
  | true =>
    simp only [if_true] at he
    cases hpi : pyParseInt (pyStrip raw) with
    | none => simp only [hpi] at he; simp at he
    | some v =>
      simp only [hpi] at he
      cases hii : int_to_ip v with
      | none => simp only [hii] at he; simp at he
      | some result =>
        simp only [hii, List.mem_singleton] at he
        subst he
        exact ⟨(("32-bit Integer").data), (("IP Address").data), result,
          third_octet_of result, Or.inr rfl, rfl⟩

/-- Witness for the amended C5: the entry recorded for the successful
forward conversion of `"1.2.3.4"`. -/
theorem C5_written_lines_shape_witness :
    history_entry (("IP Address").data) (("1.2.3.4").data) (("32-bit Integer").data)
        (pyStr 16909060) (vb_code (("3").data)) ∈
      (convert_units false (("1.2.3.4").data)).2 ∧
    ∃ inl outl disp tag,
      ((inl, outl) = ((("IP Address").data), (("32-bit Integer").data)) ∨
       (inl, outl) = ((("32-bit Integer").data), (("IP Address").data))) ∧
      history_entry (("IP Address").data) (("1.2.3.4").data) (("32-bit Integer").data)
          (pyStr 16909060) (vb_code (("3").data)) =
        inl ++ ((": ").data) ++ pyStrip (("1.2.3.4").data) ++ [' '] ++ arrowChars ++ [' '] ++
          outl ++ ((": ").data) ++ disp ++ (("    ").data) ++ vb_code tag :=
  ⟨by decide, C5_written_lines_shape false (("1.2.3.4").data) _ (by decide)⟩

theorem add_history_file (st : AppState) (e : List Char) :
    (add_history st e).file = st.file ++ [e] := rfl

theorem add_history_history (st : AppState) (e : List Char) :
    (add_history st e).history =
      if 10 < (st.history ++ [e]).length then (st.history ++ [e]).tail
      else st.history ++ [e] := rfl

theorem lastN_append_one (l : List α) (e : α) :
    lastN 10 (l ++ [e]) =
      if 10 < (lastN 10 l ++ [e]).length then (lastN 10 l ++ [e]).tail
      else lastN 10 l ++ [e] := by
  unfold lastN
  simp only [List.length_append, List.length_singleton, List.length_drop]
  by_cases h : l.length < 10
  · rw [if_neg (by omega)]
    have h1 : l.length - 10 = 0 := by omega
    have h2 : l.length + 1 - 10 = 0 := by omega
    rw [h1, h2, List.drop_zero, List.drop_zero]
  · rw [if_pos (by omega)]
    have hd : List.drop (l.length - 10) l ++ [e] = List.drop (l.length - 10) (l ++ [e]) :=
      (List.drop_append_of_le_length (by omega)).symm
    rw [hd, List.tail_drop]
    congr 1
    omega

/-- `_add_history` preserves the recency invariant: the in-memory queue
is the last 10 lines of the log. -/
theorem add_history_invariant (st : AppState) (e : List Char)
    (h : st.history = lastN 10 st.file) :
    (add_history st e).history = lastN 10 (add_history st e).file := by
  rw [add_history_history, add_history_file, h, lastN_append_one]

theorem foldl_add_history (es : List (List Char)) :
    ∀ st : AppState, st.history = lastN 10 st.file →
      (es.foldl add_history st).file = st.file ++ es ∧
      (es.foldl add_history st).history = lastN 10 (es.foldl add_history st).file := by
  induction es with
  | nil =>
    intro st h
    simp only [List.foldl_nil, List.append_nil]
    exact ⟨by trivial, h⟩
  | cons e es ih =>
    intro st h
    have step := add_history_invariant st e h
    obtain ⟨hf, hh⟩ := ih (add_history st e) step
    rw [List.foldl_cons]
    refine ⟨?_, hh⟩
    rw [hf, add_history_file]
    simp

/-- C7.  Recency-view invariant: after any sequence of `record`
operations starting from a fresh state, the in-memory queue is exactly
the last 10 lines of the persisted log in insertion order (hence holds
at most 10 entries), the log contains every recorded entry, and after
recording 11 entries the queue is exactly the last 10 (the oldest one
evicted) while the log contains all 11. -/
theorem C7_recency_invariant :
    ∀ es : List (List Char),
      (es.foldl add_history initState).file = es ∧
      (es.foldl add_history initState).history = lastN 10 es ∧
      (es.foldl add_history initState).history.length ≤ 10 ∧
      (es.length = 11 → (es.foldl add_history initState).history = es.tail) := by
  intro es
  obtain ⟨hf, hh⟩ := foldl_add_history es initState rfl
  have h0 : initState.file = [] := rfl
  rw [h0, List.nil_append] at hf
  rw [hf] at hh
  refine ⟨hf, hh, ?_, ?_⟩
  · rw [hh]
    unfold lastN
    rw [List.length_drop]
    omega
  · intro h11
    rw [hh]
    unfold lastN
    rw [h11]
    norm_num

/-- Witness for C7 at 11 concrete entries. -/
theorem C7_recency_invariant_witness :
    (((List.range 11).map (fun i => pyStr i)).foldl add_history initState).history =
      ((List.range 11).map (fun i => pyStr i)).tail ∧
    (((List.range 11).map (fun i => pyStr i)).foldl add_history initState).file =
      (List.range 11).map (fun i => pyStr i) :=
  ⟨(C7_recency_invariant ((List.range 11).map (fun i => pyStr i))).2.2.2 (by decide),
    (C7_recency_invariant ((List.range 11).map (fun i => pyStr i))).1⟩

/-- The embedded Python substring test agrees with the mathematical
infix relation. -/
theorem pyContains_iff (hay needle : List Char) :
    pyContains hay needle = true ↔ needle <:+: hay := by
  unfold pyContains
  rw [List.any_eq_true]
  constructor
  · rintro ⟨t, ht, hpre⟩
    exact List.infix_iff_prefix_suffix.mpr
      ⟨t, List.isPrefixOf_iff_prefix.mp hpre, (List.mem_tails _ _).mp ht⟩
  · intro h
    obtain ⟨t, hpre, hsuf⟩ := List.infix_iff_prefix_suffix.mp h
    exact ⟨t, (List.mem_tails _ _).mpr hsuf, List.isPrefixOf_iff_prefix.mpr hpre⟩

theorem pyContains_eq_decide (hay needle : List Char) :
    pyContains hay needle = decide (needle <:+: hay) := by
  by_cases h : needle <:+: hay
  · rw [(pyContains_iff hay needle).mpr h, decide_eq_true h]
  · rw [decide_eq_false h]
    by_contra hc
    rw [Bool.not_eq_false] at hc
    exact h ((pyContains_iff hay needle).mp hc)

/-- C8.  Search semantics: a non-empty query is lowercased and matched
against every stripped line of the re-read persisted log, keeping
exactly the lines whose lowercased form contains it, displayed in
reverse file order (most recent first); a read failure yields the empty
sequence; the empty query displays the in-memory last-10 queue, most
recent first. -/
theorem C8_search_semantics :
    ∀ (query : List Char) (fl history : List (List Char)),
      (query ≠ [] →
        search_history_lines query (some fl) history =
          ((fl.map pyStrip).filter
            (fun l => decide (pyLower query <:+: pyLower l))).reverse ∧
        search_history_lines query none history = []) ∧
      (query = [] →
        ∀ fl2, search_history_lines query fl2 history = (lastN 10 history).reverse) := by
  intro query fl history
  constructor
  · intro hq
    have hne : (pyLower query).isEmpty = false := by
      cases query with
      | nil => exact absurd rfl hq
      | cons c cs => rfl
    constructor
    · simp only [search_history_lines, hne, Bool.false_eq_true, if_false]
      congr 1
      exact List.filter_congr (fun l _ => pyContains_eq_decide (pyLower l) (pyLower query))
    · simp only [search_history_lines, hne, Bool.false_eq_true, if_false]
      rfl
  · intro hq fl2
    subst hq
    rfl

/-- Witness for C8: the spec's own example — after recording
`"A: 1 - B: 2"` and `"A: 3 - B: 4"`, searching `"3"` returns exactly the
second entry, and the empty query shows the queue most recent first. -/
theorem C8_search_semantics_witness :
    (("3").data ≠ ([] : List Char)) ∧
    search_history_lines (("3").data)
      (some [("A: 1 - B: 2").data, ("A: 3 - B: 4").data]) [] =
      [("A: 3 - B: 4").data] ∧
    search_history_lines [] (some [("A: 1 - B: 2").data, ("A: 3 - B: 4").data])
      [("A: 1 - B: 2").data, ("A: 3 - B: 4").data] =
      [("A: 3 - B: 4").data, ("A: 1 - B: 2").data] := by
  refine ⟨by decide, ?_, ?_⟩
  · rw [((C8_search_semantics (("3").data)
      [("A: 1 - B: 2").data, ("A: 3 - B: 4").data] []).1 (by decide)).1]
    decide
  · rw [(C8_search_semantics [] [("A: 1 - B: 2").data, ("A: 3 - B: 4").data]
      [("A: 1 - B: 2").data, ("A: 3 - B: 4").data]).2 rfl
      (some [("A: 1 - B: 2").data, ("A: 3 - B: 4").data])]
    decide

/-- C9.  Input-recall navigation, exactly as the claim states it: on an
empty history both handlers do nothing; `recallPrevious` with an unset
cursor moves to the last index, with a positive cursor decrements, at
index 0 stays, and always shows the entry at the cursor; `recallNext`
with an unset cursor does nothing, before the last index increments and
shows that entry, and at (or past) the last index clears the field and
unsets the cursor. -/
theorem C9_input_recall :
    ∀ (hist : List (List Char)) (idx : Option Nat) (field : List Char),
      (hist = [] → conv_input_up hist idx field = (idx, field)) ∧
      (hist ≠ [] → idx = none →
        conv_input_up hist idx field =
          (some (hist.length - 1), hist.getD (hist.length - 1) [])) ∧
      (hist ≠ [] → ∀ j, idx = some j → 0 < j →
        conv_input_up hist idx field = (some (j - 1), hist.getD (j - 1) [])) ∧
      (hist ≠ [] → idx = some 0 →
        conv_input_up hist idx field = (some 0, hist.getD 0 [])) ∧
      (idx = none → conv_input_down hist idx field = (none, field)) ∧
      (∀ j, idx = some j → j + 1 < hist.length →
        conv_input_down hist idx field = (some (j + 1), hist.getD (j + 1) [])) ∧
      (∀ j, idx = some j → ¬ j + 1 < hist.length →
        conv_input_down hist idx field = (none, [])) := by
  intro hist idx field
  refine ⟨?_, ?_, ?_, ?_, ?_, ?_, ?_⟩
  · intro h
    subst h
    rfl
  · intro hne hidx
    subst hidx
    unfold conv_input_up
    rw [if_neg (by simpa using hne)]
  · intro hne j hidx hj
    subst hidx
    unfold conv_input_up
    rw [if_neg (by simpa using hne)]
    simp only [if_pos hj]
  · intro hne hidx
    subst hidx
    unfold conv_input_up
    rw [if_neg (by simpa using hne)]
    simp
  · intro hidx
    subst hidx
    rfl
  · intro j hidx hj
    subst hidx
    unfold conv_input_down
    show (if j < hist.length - 1 then (some (j + 1), hist.getD (j + 1) []) else (none, [])) =
      (some (j + 1), hist.getD (j + 1) [])
    rw [if_pos (by omega)]
  · intro j hidx hj
    subst hidx
    unfold conv_input_down
    show (if j < hist.length - 1 then (some (j + 1), hist.getD (j + 1) []) else (none, [])) =
      ((none : Option Nat), ([] : List Char))
    rw [if_neg (by omega)]

/-- Witness for C9: the spec's own example — with history
`["10.0.0.1", "10.0.0.2"]` and unset cursor, one `recallPrevious` yields
`"10.0.0.2"` at cursor 1, a second yields `"10.0.0.1"` at cursor 0, and
two `recallNext` return to an empty field with the cursor unset. -/
theorem C9_input_recall_witness :
    conv_input_up [("10.0.0.1").data, ("10.0.0.2").data] none [] =
      (some 1, ("10.0.0.2").data) ∧
    conv_input_up [("10.0.0.1").data, ("10.0.0.2").data] (some 1) (("10.0.0.2").data) =
      (some 0, ("10.0.0.1").data) ∧
    conv_input_down [("10.0.0.1").data, ("10.0.0.2").data] (some 0) (("10.0.0.1").data) =
      (some 1, ("10.0.0.2").data) ∧
    conv_input_down [("10.0.0.1").data, ("10.0.0.2").data] (some 1) (("10.0.0.2").data) =
      (none, []) := by
  refine ⟨?_, ?_, ?_, ?_⟩
  · have h := (C9_input_recall [("10.0.0.1").data, ("10.0.0.2").data] none []).2.1
      (by decide) rfl
    rw [h]
    decide
  · have h := (C9_input_recall [("10.0.0.1").data, ("10.0.0.2").data] (some 1)
      (("10.0.0.2").data)).2.2.1 (by decide) 1 rfl (by decide)
    rw [h]
    decide
  · have h := (C9_input_recall [("10.0.0.1").data, ("10.0.0.2").data] (some 0)
      (("10.0.0.1").data)).2.2.2.2.2.1 0 rfl (by decide)
    rw [h]
    decide
  · have h := (C9_input_recall [("10.0.0.1").data, ("10.0.0.2").data] (some 1)
      (("10.0.0.2").data)).2.2.2.2.2.2 1 rfl (by decide)
    exact h

/-- C10.  Implicit side effect of `record`: every `_add_history` call
clears the search box and refreshes the listbox to the recency view
(the in-memory queue, most recent first), so no search filter survives a
conversion; the entry is still appended to the log. -/
theorem C10_record_resets_search :
    ∀ (st : AppState) (entry : List Char),
      (add_history st entry).search_var = [] ∧
      (add_history st entry).listbox =
        (lastN 10 (add_history st entry).history).reverse ∧
      (add_history st entry).file = st.file ++ [entry] := by
  intro st entry
  refine ⟨rfl, ?_, rfl⟩
  simp only [add_history, app_search_history, search_history_lines, pyLower, List.map_nil,
    List.isEmpty_nil, if_true]
